import Mathlib

/-!
# Verification of the executor job handler

A shallow embedding of `enterprise/cmd/executor/internal/worker/handler.go`:
the `PreDequeue` admission check and the `Handle` job-execution state
machine, together with its helpers (`buildScript`, `union`,
`scriptNameFromJobStep`) and the path arithmetic of the input-file guard
(`filepath.Clean` / `Join` / `Abs` and `strings.HasPrefix`).

External collaborators (the host runner, the VM runner, `ignite`,
`uuid.NewRandom`) are modelled by an oracle (`ExternalBehavior`) that fixes
the outcome of every external call; `Handle` returns the ordered trace of
the observable actions it performed together with the error value of the
Go function.
-/

namespace Executor

/-! ## Go errors

Only the structure the handler inspects is modelled: the sentinel
`context.DeadlineExceeded` (recognised through wrapping, as
`errors.Is` does), message errors (`errors.Errorf`), wrapping with a
message (`errors.Wrap`) and `multierror.Append`. -/

inductive GoError where
  | deadlineExceeded : GoError
  | msg (s : String) : GoError
  | wrap (inner : GoError) (message : String) : GoError
  | multi (errs : List GoError) : GoError
deriving Repr

mutual

/-- `errors.Is(err, context.DeadlineExceeded)`: the sentinel is found through
wrap chains and through the members of a multierror. -/
def isDeadlineExceeded : GoError → Bool
  | .deadlineExceeded => true
  | .msg _ => false
  | .wrap inner _ => isDeadlineExceeded inner
  | .multi errs => isDeadlineExceededAny errs

/-- `isDeadlineExceeded` over the members of a multierror. -/
def isDeadlineExceededAny : List GoError → Bool
  | [] => false
  | e :: es => isDeadlineExceeded e || isDeadlineExceededAny es

end

/-- `multierror.Append(err, e)` for a possibly-nil first argument: a nil
error starts a fresh multierror, an existing multierror is extended, any
other error is paired with the new one. -/
def multierrorAppend : Option GoError → GoError → GoError
  | none, e => .multi [e]
  | some (.multi es), e => .multi (es ++ [e])
  | some e0, e => .multi [e0, e]

/-! ## Strings and paths

`strings.HasPrefix`, `strings.ReplaceAll(·, "/", "_")`, splitting and
joining on a separator, and `filepath.Clean` / `Join` / `Abs` with unix
(forward slash) semantics, as the executor runs on Linux hosts. All are
defined over the character lists so that concrete instances evaluate
inside the kernel. -/

/-- `strings.HasPrefix(s, pattern)`. -/
def goStartsWith (s pattern : String) : Bool :=
  pattern.data.isPrefixOf s.data

/-- `strings.ReplaceAll(s, "/", "_")`. -/
def replaceSlashUnderscore (s : String) : String :=
  ⟨s.data.map fun c => if c = '/' then '_' else c⟩

/-- Splitting on `/` (`strings.Split(s, "/")` as `filepath` uses it). -/
def splitSlashAux : List Char → List Char → List String
  | [], cur => [⟨cur.reverse⟩]
  | c :: rest, cur =>
    if c = '/' then ⟨cur.reverse⟩ :: splitSlashAux rest []
    else splitSlashAux rest (c :: cur)

/-- Splitting a string on `/`. -/
def splitSlash (s : String) : List String := splitSlashAux s.data []

/-- `strings.Join(elems, sep)`. -/
def joinWith (sep : String) : List String → String
  | [] => ""
  | [x] => x
  | x :: y :: xs => x ++ sep ++ joinWith sep (y :: xs)

/-- The component pass of `filepath.Clean`: empty and `.` components are
dropped, `..` pops a previous component (or is kept at the front of a
relative path, or dropped at the root of an absolute one). The first list
is the remaining input, the second the processed components in reverse. -/
def cleanCore (rooted : Bool) : List String → List String → List String
  | [], acc => acc.reverse
  | c :: cs, acc =>
    if c = "" ∨ c = "." then cleanCore rooted cs acc
    else if c = ".." then
      match acc with
      | [] => if rooted then cleanCore rooted cs [] else cleanCore rooted cs [".."]
      | a :: rest =>
        if a = ".." then cleanCore rooted cs (".." :: a :: rest)
        else cleanCore rooted cs rest
    else cleanCore rooted cs (c :: acc)

/-- `filepath.Clean` for slash-separated paths. -/
def goClean (path : String) : String :=
  if path = "" then "."
  else
    let rooted := goStartsWith path "/"
    let comps := cleanCore rooted (splitSlash path) []
    if rooted then "/" ++ joinWith "/" comps
    else if comps = [] then "." else joinWith "/" comps

/-- `filepath.Join`: empty elements are skipped, the rest are joined with
`/` and cleaned; all-empty input yields the empty string. -/
def goJoinList (elems : List String) : String :=
  let ne := elems.filter (fun e => e ≠ "")
  if ne.isEmpty then "" else goClean (joinWith "/" ne)

/-- `filepath.Abs`: an absolute path is cleaned, a relative one is joined
to the current working directory `cwd`. -/
def goAbs (cwd path : String) : String :=
  if goStartsWith path "/" then goClean path else goJoinList [cwd, path]

/-! ## Go string maps

`map[string]string` is modelled as an association list without repeated
keys; insertion overwrites the value of an existing key. -/

/-- `m[k] = v` on a Go map. -/
def mapInsert (m : List (String × String)) (k v : String) : List (String × String) :=
  if m.any (fun p => p.1 = k) then
    m.map (fun p => if p.1 = k then (k, v) else p)
  else m ++ [(k, v)]

/-- Lookup in a Go map. -/
def mapGet : List (String × String) → String → Option String
  | [], _ => none
  | p :: ps, k => if p.1 = k then some p.2 else mapGet ps k

/-- `union` of handler.go: a fresh map receives every entry of `a`, then
every entry of `b`, so `b` wins on a shared key. -/
def union (a b : List (String × String)) : List (String × String) :=
  (a ++ b).foldl (fun c p => mapInsert c p.1 p.2) []

/-! ## Decimal rendering (`fmt.Sprintf("%d", ·)` for non-negative values) -/

/-- The decimal digit character of `d < 10`. -/
def digitChar : Nat → Char
  | 0 => '0' | 1 => '1' | 2 => '2' | 3 => '3' | 4 => '4'
  | 5 => '5' | 6 => '6' | 7 => '7' | 8 => '8' | 9 => '9'
  | _ => '*'

/-- Fuel-driven digit accumulator (structurally recursive, so concrete
instances evaluate inside the kernel). -/
def natReprCore : Nat → Nat → List Char → List Char
  | 0, _, acc => acc
  | fuel + 1, n, acc =>
    if n < 10 then digitChar n :: acc
    else natReprCore fuel (n / 10) (digitChar (n % 10) :: acc)

/-- The digit list of `n`, most significant first (specification view of
`natReprCore`, used in proofs). -/
def natDigits (n : Nat) : List Char :=
  if _h : n < 10 then [digitChar n]
  else natDigits (n / 10) ++ [digitChar (n % 10)]
termination_by n
decreasing_by exact Nat.div_lt_self (by omega) (by omega)

/-- `%d` of a non-negative integer. -/
def natRepr (n : Nat) : String := ⟨natReprCore (n + 1) n []⟩

/-! ## The data model of `executor.Job` and the handler's options -/

/-- One docker step of a job (`executor.DockerStep`). -/
structure DockerStep where
  image : String
  commands : List String
  dir : String
  env : List String
deriving DecidableEq, Repr

/-- One src-cli step of a job (`executor.CliStep`). -/
structure CliStep where
  commands : List String
  dir : String
  env : List String
deriving DecidableEq, Repr

/-- `executor.Job`. Go maps (`VirtualMachineFiles`, `RedactedValues`) are
association lists in some iteration order; the record ID is the job ID. -/
structure Job where
  id : Nat
  repositoryName : String
  commit : String
  dockerSteps : List DockerStep
  cliSteps : List CliStep
  virtualMachineFiles : List (String × String)
  redactedValues : List (String × String)
deriving DecidableEq, Repr

/-- `FirecrackerOptions` (only the field the handler reads). -/
structure FirecrackerOptions where
  enabled : Bool
deriving DecidableEq, Repr

/-- `workerutil.WorkerOptions` (only the field the handler reads). -/
structure WorkerOptions where
  numHandlers : Nat
deriving DecidableEq, Repr

/-- The handler's `Options`. `vmPref` models the `VMPrefix` field; the
maximum runtime per job is carried as the string `%s` renders the
configured `time.Duration` to. -/
structure Options where
  vmPref : String
  maximumRuntimePerJob : String
  firecrackerOptions : FirecrackerOptions
  workerOptions : WorkerOptions
  redactedValues : List (String × String)

/-- `command.CommandSpec` (without the telemetry `Operation` field). -/
structure CommandSpec where
  key : String
  image : String
  scriptPath : String
  command : List String
  dir : String
  env : List String
deriving DecidableEq, Repr

/-- The context a blocking call receives: the per-job deadline context or
`context.Background()`. -/
inductive Ctx where
  | jobDeadline
  | background
deriving DecidableEq, Repr

/-- The observable actions `Handle` performs, in order. -/
inductive Event where
  | createLogger (redacted : List (String × String))
  | prepareWorkspace (ctx : Ctx)
  | writeFile (path : String) (content : String)
  | nameSetAdd (name : String)
  | nameSetRemove (name : String)
  | setup (ctx : Ctx) (images : List String)
  | run (ctx : Ctx) (spec : CommandSpec)
  | teardown (ctx : Ctx)
  | removeWorkingDir (dir : String)
deriving DecidableEq, Repr

/-- The oracle fixing every external call's outcome for one `Handle` run:
the process working directory (for `filepath.Abs`), the result of
`prepareWorkspace`, of `uuid.NewRandom`, of `runner.Setup`, of each
`runner.Run` (by the command spec it is given) and of `runner.Teardown`. -/
structure ExternalBehavior where
  cwd : String
  prepareResult : Except GoError String
  uuidResult : Except GoError String
  setupErr : Option GoError
  runErr : CommandSpec → Option GoError
  teardownErr : Option GoError

/-! ## `PreDequeue` -/

/-- What `PreDequeue` returns: the `dequeueable` flag, the error, and
whether the orphaned-VM warning was logged (the `log15.Warn` call). The
`extraDequeueArguments` value is always nil and is not modelled. -/
structure PreDequeueResult where
  dequeueable : Bool
  err : Option GoError
  warned : Bool
deriving Repr

/-- `handler.PreDequeue`. `currentVMs` is the result of
`ignite.CurrentlyRunningVMs(context.Background(), h.options.VMPrefix)`,
which is only consulted when Firecracker execution is enabled. -/
def PreDequeue (opts : Options) (currentVMs : Except GoError (List String)) :
    PreDequeueResult :=
  if !opts.firecrackerOptions.enabled then ⟨true, none, false⟩
  else
    match currentVMs with
    | .error e => ⟨false, some e, false⟩
    | .ok vms =>
      if vms.length < opts.workerOptions.numHandlers then ⟨true, none, false⟩
      else ⟨false, none, true⟩

/-! ## `Handle` and its helpers -/

/-- The `wrapError` closure of `Handle`: a deadline-exceeded error is
replaced by the distinguished maximum-execution-time error, then wrapped
with the stage's message. -/
def wrapError (maxRuntime : String) (e : GoError) (message : String) : GoError :=
  let e' :=
    if isDeadlineExceeded e then
      GoError.msg ("job exceeded maximum execution time of " ++ maxRuntime)
    else e
  GoError.wrap e' message

/-- The `scriptPreamble` of handler.go. -/
def scriptPreamble : String := "\nset -x\n"

/-- `buildScript`: the preamble, a blank entry and the step's commands,
joined by newlines, with a trailing newline. -/
def buildScript (step : DockerStep) : String :=
  joinWith "\n" ([scriptPreamble, ""] ++ step.commands) ++ "\n"

/-- `scriptNameFromJobStep`:
`fmt.Sprintf("%d.%d_%s@%s.sh", job.ID, i, ReplaceAll(job.RepositoryName, "/", "_"), job.Commit)`. -/
def scriptNameFromJobStep (job : Job) (i : Nat) : String :=
  natRepr job.id ++ "." ++ natRepr i ++ "_"
    ++ replaceSlashUnderscore job.repositoryName ++ "@" ++ job.commit ++ ".sh"

/-- `command.ScriptsPath`, defined in the `command` package (outside the
files under verification): the workspace subdirectory scripts are written
into. Its concrete value is immaterial to every claim. -/
def ScriptsPath : String := ".sourcegraph-executor"

/-- Lexicographic strict order on character lists, by code point (for
strings this agrees with Go's byte-wise `<` since UTF-8 preserves
code-point order). -/
def charListLt : List Char → List Char → Bool
  | [], [] => false
  | [], _ :: _ => true
  | _ :: _, [] => false
  | c :: cs, d :: ds =>
    if c.toNat < d.toNat then true
    else if d.toNat < c.toNat then false
    else charListLt cs ds

/-- Go's `a < b` on strings. -/
def strLtB (a b : String) : Bool := charListLt a.data b.data

/-- Go's `a <= b` on strings. -/
def strLeB (a b : String) : Bool := !(strLtB b a)

/-- Insertion into a sorted string list (the building block of the model
of `sort.Strings`). -/
def insertSorted (s : String) : List String → List String
  | [] => [s]
  | x :: xs => if strLeB s x then s :: x :: xs else x :: insertSorted s xs

/-- `sort.Strings`: ascending lexicographic insertion sort. -/
def sortStrings : List String → List String
  | [] => []
  | x :: xs => insertSorted x (sortStrings xs)

/-- The deduplicated, sorted image list `Handle` passes to `runner.Setup`:
the distinct images of the docker steps (the keys of the `imageMap` set),
sorted ascending (`sort.Strings`). -/
def imageNames (steps : List DockerStep) : List String :=
  sortStrings (steps.map (fun s => s.image)).dedup

/-- The `scriptNames` slice `Handle` accumulates: one name per docker
step, in step order. -/
def scriptNames (job : Job) : List String :=
  (List.range job.dockerSteps.length).map (scriptNameFromJobStep job)

/-- The script-file writes of `Handle`'s docker-step loop: step `i`'s
script content is written to
`filepath.Join(workingDirectory, command.ScriptsPath, scriptName)`. -/
def scriptsTrace (wd : String) (job : Job) : List Event :=
  job.dockerSteps.enum.map fun p =>
    Event.writeFile (goJoinList [wd, ScriptsPath, scriptNameFromJobStep job p.1])
      (buildScript p.2)

/-- The command spec of docker step `i` (`dockerStepCommand`). -/
def dockerSpecs (job : Job) : List CommandSpec :=
  job.dockerSteps.enum.map fun p =>
    { key := "step.docker." ++ natRepr p.1
      image := p.2.image
      scriptPath := (scriptNames job).getD p.1 ""
      command := []
      dir := p.2.dir
      env := p.2.env }

/-- The command spec of src-cli step `i` (`cliStepCommand`). -/
def cliSpecs (job : Job) : List CommandSpec :=
  job.cliSteps.enum.map fun p =>
    { key := "step.src." ++ natRepr p.1
      image := ""
      scriptPath := ""
      command := "src" :: p.2.commands
      dir := p.2.dir
      env := p.2.env }

/-- The virtual-machine-file loop of `Handle`: each file's path is
`filepath.Abs(filepath.Join(workingDirectory, relativePath))`; a path that
does not have the working directory as a string prefix
(`strings.HasPrefix`) aborts the loop with a hard error before that file
is written. -/
def writeVMFiles (cwd wd : String) :
    List (String × String) → List Event × Option GoError
  | [] => ([], none)
  | (rel, content) :: rest =>
    let path := goAbs cwd (goJoinList [wd, rel])
    if goStartsWith path wd then
      let r := writeVMFiles cwd wd rest
      (Event.writeFile path content :: r.1, r.2)
    else ([], some (GoError.msg "refusing to write outside of working directory"))

/-- One sequential step loop: each spec is given to `runner.Run` under the
deadline context; the first failure is wrapped with the loop's message and
aborts the remaining steps. -/
def runSteps (b : ExternalBehavior) (maxRuntime message : String) :
    List CommandSpec → List Event × Option GoError
  | [] => ([], none)
  | s :: ss =>
    match b.runErr s with
    | some e => ([Event.run Ctx.jobDeadline s], some (wrapError maxRuntime e message))
    | none =>
      let r := runSteps b maxRuntime message ss
      (Event.run Ctx.jobDeadline s :: r.1, r.2)

/-- The raw error of the first failing spec of a loop, if any. -/
def firstFailure (b : ExternalBehavior) : List CommandSpec → Option GoError
  | [] => none
  | s :: ss =>
    match b.runErr s with
    | some e => some e
    | none => firstFailure b ss

/-- The specs a loop actually runs: everything up to and including the
first failing one. -/
def executedSpecs (b : ExternalBehavior) : List CommandSpec → List CommandSpec
  | [] => []
  | s :: ss =>
    match b.runErr s with
    | some _ => [s]
    | none => s :: executedSpecs b ss

/-- Both step loops of `Handle`: all docker steps, then - only when every
docker step succeeded - all src-cli steps. -/
def runAllSteps (b : ExternalBehavior) (maxRuntime : String) (job : Job) :
    List Event × Option GoError :=
  let d := runSteps b maxRuntime "failed to perform docker step" (dockerSpecs job)
  match d.2 with
  | some _ => d
  | none =>
    let c := runSteps b maxRuntime "failed to perform src-cli step" (cliSpecs job)
    (d.1 ++ c.1, c.2)

/-- `handler.Handle`. Returns the trace of observable actions and the
error value. Deferred actions run in LIFO order at each return: after
`runner.Setup` succeeds they are the teardown closure (which appends a
teardown failure to the in-flight error with `multierror.Append` and runs
under `context.Background()`), then `h.nameSet.Remove(name)`, then
`os.RemoveAll(workingDirectory)`. -/
def Handle (opts : Options) (b : ExternalBehavior) (job : Job) :
    List Event × Option GoError :=
  let maxR := opts.maximumRuntimePerJob
  let tr0 : List Event :=
    [Event.createLogger (union opts.redactedValues job.redactedValues),
     Event.prepareWorkspace Ctx.jobDeadline]
  match b.prepareResult with
  | .error e => (tr0, some (wrapError maxR e "failed to prepare workspace"))
  | .ok wd =>
    let w := writeVMFiles b.cwd wd job.virtualMachineFiles
    match w.2 with
    | some e => (tr0 ++ w.1 ++ [Event.removeWorkingDir wd], some e)
    | none =>
      match b.uuidResult with
      | .error e => (tr0 ++ w.1 ++ [Event.removeWorkingDir wd], some e)
      | .ok uuid =>
        let name := opts.vmPref ++ "-" ++ uuid
        let tr1 := tr0 ++ w.1 ++ [Event.nameSetAdd name] ++ scriptsTrace wd job
          ++ [Event.setup Ctx.jobDeadline (imageNames job.dockerSteps)]
        match b.setupErr with
        | some e =>
          (tr1 ++ [Event.nameSetRemove name, Event.removeWorkingDir wd],
           some (wrapError maxR e "failed to setup virtual machine"))
        | none =>
          let r := runAllSteps b maxR job
          let err :=
            match b.teardownErr with
            | none => r.2
            | some te => some (multierrorAppend r.2 te)
          (tr1 ++ r.1
             ++ [Event.teardown Ctx.background, Event.nameSetRemove name,
                 Event.removeWorkingDir wd],
           err)

/-! # Lemmas

## Decimal rendering -/

/-- Parsing a digit list back to the number it renders. -/
def parseDigits (cs : List Char) : Nat :=
  cs.foldl (fun acc c => acc * 10 + (c.toNat - 48)) 0

theorem digitChar_toNat {d : Nat} (h : d < 10) : (digitChar d).toNat = 48 + d := by
  interval_cases d <;> rfl

theorem natDigits_toNat_bounds :
    ∀ n, ∀ c ∈ natDigits n, 48 ≤ c.toNat ∧ c.toNat ≤ 57 := by
  intro n
  induction n using Nat.strong_induction_on with
  | _ n ih =>
    intro c hc
    rw [natDigits] at hc
    split at hc
    · next h10 =>
      simp only [List.mem_singleton] at hc
      subst hc
      rw [digitChar_toNat h10]
      omega
    · next h10 =>
      rcases List.mem_append.mp hc with h | h
      · exact ih (n / 10) (Nat.div_lt_self (by omega) (by omega)) c h
      · simp only [List.mem_singleton] at h
        subst h
        rw [digitChar_toNat (Nat.mod_lt n (by omega))]
        have := Nat.mod_lt n (show 0 < 10 by omega)
        omega

theorem parseDigits_append_singleton (l : List Char) (c : Char) :
    parseDigits (l ++ [c]) = parseDigits l * 10 + (c.toNat - 48) := by
  simp [parseDigits, List.foldl_append]

theorem parseDigits_natDigits : ∀ n, parseDigits (natDigits n) = n := by
  intro n
  induction n using Nat.strong_induction_on with
  | _ n ih =>
    rw [natDigits]
    split
    · next h10 =>
      simp [parseDigits, digitChar_toNat h10]
    · next h10 =>
      rw [parseDigits_append_singleton,
        ih (n / 10) (Nat.div_lt_self (by omega) (by omega)),
        digitChar_toNat (Nat.mod_lt n (by omega))]
      omega

theorem natReprCore_eq :
    ∀ fuel n acc, n < fuel → natReprCore fuel n acc = natDigits n ++ acc := by
  intro fuel
  induction fuel with
  | zero => intro n acc h; omega
  | succ f ih =>
    intro n acc h
    rw [natReprCore]
    split
    · next h10 => rw [natDigits]; simp [h10]
    · next h10 =>
      have hlt : n / 10 < f := by
        have h2 : n / 10 < n := Nat.div_lt_self (by omega) (by omega)
        omega
      rw [ih (n / 10) _ hlt]
      conv_rhs => rw [natDigits]
      simp [h10, List.append_assoc]

theorem natRepr_data (n : Nat) : (natRepr n).data = natDigits n := by
  show (String.mk (natReprCore (n + 1) n [])).data = _
  rw [natReprCore_eq (n + 1) n [] (by omega)]
  simp

theorem natRepr_inj {m n : Nat} (h : natRepr m = natRepr n) : m = n := by
  have hd : natDigits m = natDigits n := by
    rw [← natRepr_data, ← natRepr_data, h]
  have := congrArg parseDigits hd
  simpa [parseDigits_natDigits] using this

/-! ## Script names are collision-free across job IDs and step indices -/

theorem takeWhile_append_stop {p : Char → Bool} :
    ∀ (l1 : List Char) (c : Char) (l2 : List Char),
      (∀ x ∈ l1, p x = true) → p c = false →
      (l1 ++ c :: l2).takeWhile p = l1 := by
  intro l1
  induction l1 with
  | nil => intro c l2 _ hc; simp [List.takeWhile_cons, hc]
  | cons a l ih =>
    intro c l2 h hc
    have ha : p a = true := h a (by simp)
    simp only [List.cons_append, List.takeWhile_cons, ha, if_true]
    rw [ih c l2 (fun x hx => h x (by simp [hx])) hc]

theorem dropWhile_append_stop {p : Char → Bool} :
    ∀ (l1 : List Char) (c : Char) (l2 : List Char),
      (∀ x ∈ l1, p x = true) → p c = false →
      (l1 ++ c :: l2).dropWhile p = c :: l2 := by
  intro l1
  induction l1 with
  | nil => intro c l2 _ hc; simp [List.dropWhile_cons, hc]
  | cons a l ih =>
    intro c l2 h hc
    have ha : p a = true := h a (by simp)
    simp only [List.cons_append, List.dropWhile_cons, ha, if_true]
    exact ih c l2 (fun x hx => h x (by simp [hx])) hc

theorem natDigits_ne_dot {n : Nat} : ∀ c ∈ natDigits n, (c != '.') = true := by
  intro c hc
  have hb := natDigits_toNat_bounds n c hc
  simp only [bne_iff_ne, ne_eq]
  intro he
  subst he
  have h46 : ('.' : Char).toNat = 46 := rfl
  omega

theorem natDigits_ne_underscore {n : Nat} : ∀ c ∈ natDigits n, (c != '_') = true := by
  intro c hc
  have hb := natDigits_toNat_bounds n c hc
  simp only [bne_iff_ne, ne_eq]
  intro he
  subst he
  have h95 : ('_' : Char).toNat = 95 := rfl
  omega

theorem str_data_append (a b : String) : (a ++ b).data = a.data ++ b.data := rfl

theorem scriptName_data (j : Job) (i : Nat) :
    (scriptNameFromJobStep j i).data =
      natDigits j.id ++ '.' :: (natDigits i ++ '_' ::
        ((replaceSlashUnderscore j.repositoryName).data
          ++ '@' :: (j.commit.data ++ ['.', 's', 'h']))) := by
  simp only [scriptNameFromJobStep, str_data_append, natRepr_data]
  simp [List.append_assoc]

theorem scriptName_inj {j1 j2 : Job} {i1 i2 : Nat}
    (h : scriptNameFromJobStep j1 i1 = scriptNameFromJobStep j2 i2) :
    j1.id = j2.id ∧ i1 = i2 := by
  have hd := congrArg String.data h
  rw [scriptName_data, scriptName_data] at hd
  have hdotF : (('.' : Char) != '.') = false := by simp
  have hundF : (('_' : Char) != '_') = false := by simp
  generalize hT1 : (replaceSlashUnderscore j1.repositoryName).data
    ++ '@' :: (j1.commit.data ++ ['.', 's', 'h']) = tail1 at hd
  generalize hT2 : (replaceSlashUnderscore j2.repositoryName).data
    ++ '@' :: (j2.commit.data ++ ['.', 's', 'h']) = tail2 at hd
  have hid : natDigits j1.id = natDigits j2.id := by
    have t1 := takeWhile_append_stop (natDigits j1.id) '.'
      (natDigits i1 ++ '_' :: tail1) natDigits_ne_dot hdotF
    have t2 := takeWhile_append_stop (natDigits j2.id) '.'
      (natDigits i2 ++ '_' :: tail2) natDigits_ne_dot hdotF
    rw [← t1, ← t2, hd]
  have hrest := congrArg (List.dropWhile (fun c => c != '.')) hd
  rw [dropWhile_append_stop (natDigits j1.id) '.'
      (natDigits i1 ++ '_' :: tail1) natDigits_ne_dot hdotF,
    dropWhile_append_stop (natDigits j2.id) '.'
      (natDigits i2 ++ '_' :: tail2) natDigits_ne_dot hdotF] at hrest
  have hrest' := congrArg List.tail hrest
  simp only [List.tail_cons] at hrest'
  have hidx : natDigits i1 = natDigits i2 := by
    have t1 := takeWhile_append_stop (natDigits i1) '_' tail1
      natDigits_ne_underscore hundF
    have t2 := takeWhile_append_stop (natDigits i2) '_' tail2
      natDigits_ne_underscore hundF
    rw [← t1, ← t2, hrest']
  constructor
  · have := congrArg parseDigits hid
    simpa [parseDigits_natDigits] using this
  · have := congrArg parseDigits hidx
    simpa [parseDigits_natDigits] using this

/-! ## The string order and `sort.Strings` -/

theorem charToNat_inj {a b : Char} (h : a.toNat = b.toNat) : a = b :=
  Char.ext (UInt32.toNat.inj h)

theorem charListLt_cons_iff {c d : Char} {cs ds : List Char} :
    charListLt (c :: cs) (d :: ds) = true ↔
      (c.toNat < d.toNat ∨ (c.toNat = d.toNat ∧ charListLt cs ds = true)) := by
  simp only [charListLt]
  by_cases h1 : c.toNat < d.toNat
  · simp [h1]
  · by_cases h2 : d.toNat < c.toNat
    · simp only [if_neg h1, if_pos h2]
      constructor
      · intro h; exact absurd h (by simp)
      · intro h; omega
    · have he : c.toNat = d.toNat := by omega
      simp [h1, h2, he]

theorem charListLt_asymm :
    ∀ l1 l2, charListLt l1 l2 = true → charListLt l2 l1 = false := by
  intro l1
  induction l1 with
  | nil => intro l2 h; cases l2 <;> simp_all [charListLt]
  | cons c cs ih =>
    intro l2 h
    cases l2 with
    | nil => simp [charListLt] at h
    | cons d ds =>
      rcases charListLt_cons_iff.mp h with hlt | ⟨he, hrec⟩
      · apply Bool.not_eq_true _ |>.mp
        intro h2
        rcases charListLt_cons_iff.mp h2 with h2lt | ⟨h2e, _⟩ <;> omega
      · apply Bool.not_eq_true _ |>.mp
        intro h2
        rcases charListLt_cons_iff.mp h2 with h2lt | ⟨_, h2rec⟩
        · omega
        · exact absurd h2rec (by simp [ih ds hrec])

theorem charListLt_trans :
    ∀ l1 l2 l3, charListLt l1 l2 = true → charListLt l2 l3 = true →
      charListLt l1 l3 = true := by
  intro l1
  induction l1 with
  | nil =>
    intro l2 l3 h1 h2
    cases l2 <;> cases l3 <;> simp_all [charListLt]
  | cons c cs ih =>
    intro l2 l3 h1 h2
    cases l2 with
    | nil => simp [charListLt] at h1
    | cons d ds =>
      cases l3 with
      | nil => simp [charListLt] at h2
      | cons e es =>
        rcases charListLt_cons_iff.mp h1 with hcd | ⟨hcd, hrec1⟩ <;>
          rcases charListLt_cons_iff.mp h2 with hde | ⟨hde, hrec2⟩
        · exact charListLt_cons_iff.mpr (Or.inl (by omega))
        · exact charListLt_cons_iff.mpr (Or.inl (by omega))
        · exact charListLt_cons_iff.mpr (Or.inl (by omega))
        · exact charListLt_cons_iff.mpr
            (Or.inr ⟨by omega, ih ds es hrec1 hrec2⟩)

theorem charListLt_eq_of_not :
    ∀ l1 l2, charListLt l1 l2 = false → charListLt l2 l1 = false → l1 = l2 := by
  intro l1
  induction l1 with
  | nil =>
    intro l2 h1 _
    cases l2 with
    | nil => rfl
    | cons d ds => simp [charListLt] at h1
  | cons c cs ih =>
    intro l2 h1 h2
    cases l2 with
    | nil => simp [charListLt] at h2
    | cons d ds =>
      have n1 : ¬ (c.toNat < d.toNat ∨ (c.toNat = d.toNat ∧ charListLt cs ds = true)) := by
        rw [← charListLt_cons_iff]
        simp [h1]
      have n2 : ¬ (d.toNat < c.toNat ∨ (d.toNat = c.toNat ∧ charListLt ds cs = true)) := by
        rw [← charListLt_cons_iff]
        simp [h2]
      push_neg at n1 n2
      have he : c.toNat = d.toNat := by omega
      have hrec : cs = ds := by
        apply ih ds
        · have := n1.2 he
          simpa using this
        · have := n2.2 he.symm
          simpa using this
      rw [charToNat_inj he, hrec]

theorem strLeB_of_not {a b : String} (h : strLeB a b = false) : strLeB b a = true := by
  simp only [strLeB, strLtB, Bool.not_eq_false'] at h
  simp only [strLeB, strLtB, Bool.not_eq_true']
  exact charListLt_asymm _ _ h

theorem strLeB_trans {a b c : String}
    (h1 : strLeB a b = true) (h2 : strLeB b c = true) : strLeB a c = true := by
  simp only [strLeB, strLtB, Bool.not_eq_true'] at h1 h2 ⊢
  by_contra hca
  rw [Bool.not_eq_false] at hca
  by_cases hab : charListLt a.data b.data = true
  · have := charListLt_trans _ _ _ hca hab
    simp [this] at h2
  · have hab' : charListLt a.data b.data = false := by simpa using hab
    have : a.data = b.data := charListLt_eq_of_not _ _ hab' h1
    rw [this] at hca
    simp [hca] at h2

theorem strLeB_antisymm {a b : String}
    (h1 : strLeB a b = true) (h2 : strLeB b a = true) : a = b := by
  simp only [strLeB, strLtB, Bool.not_eq_true'] at h1 h2
  exact String.ext (charListLt_eq_of_not _ _ h2 h1)

theorem insertSorted_perm (s : String) : ∀ l, List.Perm (insertSorted s l) (s :: l) := by
  intro l
  induction l with
  | nil => simp [insertSorted]
  | cons x xs ih =>
    simp only [insertSorted]
    split
    · exact List.Perm.refl _
    · exact (ih.cons x).trans (List.Perm.swap s x xs)

theorem sortStrings_perm : ∀ l, List.Perm (sortStrings l) l := by
  intro l
  induction l with
  | nil => simp [sortStrings]
  | cons x xs ih =>
    exact (insertSorted_perm x (sortStrings xs)).trans (ih.cons x)

theorem insertSorted_pairwise {s : String} :
    ∀ {l : List String}, l.Pairwise (fun a b => strLeB a b = true) →
      (insertSorted s l).Pairwise (fun a b => strLeB a b = true) := by
  intro l
  induction l with
  | nil => intro _; simp [insertSorted]
  | cons x xs ih =>
    intro hl
    rcases List.pairwise_cons.mp hl with ⟨hx, hxs⟩
    simp only [insertSorted]
    split
    · next hle =>
      refine List.pairwise_cons.mpr ⟨?_, hl⟩
      intro b hb
      rcases List.mem_cons.mp hb with he | hbxs
      · rw [he]; exact hle
      · exact strLeB_trans hle (hx b hbxs)
    · next hnle =>
      have hxle : strLeB x s = true := strLeB_of_not (by simpa using hnle)
      refine List.pairwise_cons.mpr ⟨?_, ih hxs⟩
      intro b hb
      rcases List.mem_cons.mp ((insertSorted_perm s xs).mem_iff.mp hb) with he | hbxs
      · rw [he]; exact hxle
      · exact hx b hbxs

theorem sortStrings_pairwise :
    ∀ l : List String, (sortStrings l).Pairwise (fun a b => strLeB a b = true) := by
  intro l
  induction l with
  | nil => simp [sortStrings]
  | cons x xs ih => exact insertSorted_pairwise ih

theorem sorted_nodup_unique :
    ∀ l1 l2 : List String,
      l1.Pairwise (fun a b => strLeB a b = true) →
      l2.Pairwise (fun a b => strLeB a b = true) →
      l1.Nodup → l2.Nodup → (∀ a, a ∈ l1 ↔ a ∈ l2) → l1 = l2 := by
  intro l1
  induction l1 with
  | nil =>
    intro l2 _ _ _ _ hmem
    cases l2 with
    | nil => rfl
    | cons y ys => exact absurd ((hmem y).mpr (by simp)) (by simp)
  | cons x xs ih =>
    intro l2 h1 h2 n1 n2 hmem
    cases l2 with
    | nil => exact absurd ((hmem x).mp (by simp)) (by simp)
    | cons y ys =>
      have hxy : x = y := by
        have hx2 : x ∈ y :: ys := (hmem x).mp (by simp)
        have hy1 : y ∈ x :: xs := (hmem y).mpr (by simp)
        rcases List.mem_cons.mp hx2 with he | hxys
        · exact he
        rcases List.mem_cons.mp hy1 with he | hyxs
        · exact he.symm
        exact strLeB_antisymm ((List.pairwise_cons.mp h1).1 y hyxs)
          ((List.pairwise_cons.mp h2).1 x hxys)
      subst hxy
      have hn1 := List.nodup_cons.mp n1
      have hn2 := List.nodup_cons.mp n2
      congr 1
      apply ih ys (List.pairwise_cons.mp h1).2 (List.pairwise_cons.mp h2).2
        hn1.2 hn2.2
      intro a
      constructor
      · intro ha
        rcases List.mem_cons.mp ((hmem a).mp (List.mem_cons_of_mem x ha)) with he | h
        · exact absurd (he ▸ ha) hn1.1
        · exact h
      · intro ha
        rcases List.mem_cons.mp ((hmem a).mpr (List.mem_cons_of_mem x ha)) with he | h
        · exact absurd (he ▸ ha) hn2.1
        · exact h

theorem imageNames_nodup (steps : List DockerStep) : (imageNames steps).Nodup :=
  (sortStrings_perm _).nodup_iff.mpr (List.nodup_dedup _)

theorem imageNames_pairwise (steps : List DockerStep) :
    (imageNames steps).Pairwise (fun a b => strLeB a b = true) :=
  sortStrings_pairwise _

theorem imageNames_mem (steps : List DockerStep) (s : String) :
    s ∈ imageNames steps ↔ ∃ st ∈ steps, st.image = s := by
  rw [imageNames, (sortStrings_perm _).mem_iff, List.mem_dedup, List.mem_map]

theorem imageNames_canonical {steps1 steps2 : List DockerStep}
    (h : ∀ s, (∃ st ∈ steps1, st.image = s) ↔ (∃ st ∈ steps2, st.image = s)) :
    imageNames steps1 = imageNames steps2 := by
  apply sorted_nodup_unique _ _ (imageNames_pairwise _) (imageNames_pairwise _)
    (imageNames_nodup _) (imageNames_nodup _)
  intro a
  rw [imageNames_mem, imageNames_mem]
  exact h a

/-! ## Go map lemmas -/

/-- The value of the last entry of the list with key `k` - what a Go map
holds at `k` after inserting the entries in list order. -/
def mapGetLast : List (String × String) → String → Option String
  | [], _ => none
  | p :: ps, k =>
    match mapGetLast ps k with
    | some v => some v
    | none => if p.1 = k then some p.2 else none

theorem mapGet_map_replace (k v : String) :
    ∀ (ps : List (String × String)) (k2 : String), k2 ≠ k →
      mapGet (ps.map (fun p => if p.1 = k then (k, v) else p)) k2 = mapGet ps k2 := by
  intro ps
  induction ps with
  | nil => intro k2 _; rfl
  | cons p ps ih =>
    intro k2 h
    by_cases hp : p.1 = k
    · rw [List.map_cons, if_pos hp]
      show (if k = k2 then some v else _) = _
      rw [if_neg (fun hh => h hh.symm),
        show mapGet (p :: ps) k2 = if p.1 = k2 then some p.2 else mapGet ps k2 from rfl,
        if_neg (by rw [hp]; exact fun hh => h hh.symm), ih k2 h]
    · rw [List.map_cons, if_neg hp]
      show (if p.1 = k2 then some p.2 else _) = (if p.1 = k2 then some p.2 else _)
      by_cases hq : p.1 = k2
      · rw [if_pos hq, if_pos hq]
      · rw [if_neg hq, if_neg hq, ih k2 h]

theorem mapGet_map_replace_self (k v : String) :
    ∀ ps : List (String × String), ps.any (fun p => p.1 = k) = true →
      mapGet (ps.map (fun p => if p.1 = k then (k, v) else p)) k = some v := by
  intro ps
  induction ps with
  | nil => intro h; simp at h
  | cons p ps ih =>
    intro h
    by_cases hp : p.1 = k
    · rw [List.map_cons, if_pos hp]
      show (if k = k then some v else _) = some v
      rw [if_pos rfl]
    · rw [List.map_cons, if_neg hp]
      show (if p.1 = k then some p.2 else _) = some v
      rw [if_neg hp]
      apply ih
      simpa [hp] using h

theorem mapGet_eq_none (k : String) :
    ∀ m : List (String × String), m.any (fun p => p.1 = k) = false →
      mapGet m k = none := by
  intro m
  induction m with
  | nil => intro _; rfl
  | cons p ps ih =>
    intro h
    simp only [List.any_cons, Bool.or_eq_false_iff, decide_eq_false_iff_not] at h
    show (if p.1 = k then some p.2 else _) = none
    rw [if_neg h.1]
    exact ih h.2

theorem mapGet_append (k : String) :
    ∀ l1 l2 : List (String × String),
      mapGet (l1 ++ l2) k =
        match mapGet l1 k with
        | some v => some v
        | none => mapGet l2 k := by
  intro l1 l2
  induction l1 with
  | nil => rfl
  | cons p ps ih =>
    rw [List.cons_append]
    show (if p.1 = k then some p.2 else mapGet (ps ++ l2) k) = _
    by_cases hp : p.1 = k
    · rw [if_pos hp]
      show _ = (match if p.1 = k then some p.2 else mapGet ps k with
        | some v => some v | none => mapGet l2 k)
      rw [if_pos hp]
    · rw [if_neg hp, ih]
      show _ = (match if p.1 = k then some p.2 else mapGet ps k with
        | some v => some v | none => mapGet l2 k)
      rw [if_neg hp]

theorem mapGet_mapInsert_self (m : List (String × String)) (k v : String) :
    mapGet (mapInsert m k v) k = some v := by
  unfold mapInsert
  split
  · next hany => exact mapGet_map_replace_self k v m hany
  · next hany =>
    rw [mapGet_append, mapGet_eq_none k m (by revert hany; cases m.any (fun p => p.1 = k) <;> simp)]
    show (if k = k then some v else _) = some v
    rw [if_pos rfl]

theorem mapGet_mapInsert_ne (m : List (String × String)) (k v k2 : String)
    (h : k2 ≠ k) :
    mapGet (mapInsert m k v) k2 = mapGet m k2 := by
  unfold mapInsert
  split
  · next => exact mapGet_map_replace k v m k2 h
  · next =>
    rw [mapGet_append]
    cases hm : mapGet m k2 with
    | some v' => rfl
    | none =>
      show (if k = k2 then some v else mapGet [] k2) = none
      rw [if_neg (fun hh => h hh.symm)]
      rfl

theorem mapGet_foldl_insert (k : String) :
    ∀ (l init : List (String × String)),
      mapGet (l.foldl (fun c p => mapInsert c p.1 p.2) init) k =
        match mapGetLast l k with
        | some v => some v
        | none => mapGet init k := by
  intro l
  induction l with
  | nil => intro init; rfl
  | cons p ps ih =>
    intro init
    rw [List.foldl_cons, ih]
    show _ = (match (match mapGetLast ps k with
      | some v => some v
      | none => if p.1 = k then some p.2 else none) with
      | some v => some v | none => mapGet init k)
    cases hps : mapGetLast ps k with
    | some v => rfl
    | none =>
      by_cases hp : p.1 = k
      · rw [if_pos hp]
        show mapGet (mapInsert init p.1 p.2) k = some p.2
        rw [← hp]
        exact mapGet_mapInsert_self init p.1 p.2
      · rw [if_neg hp]
        exact mapGet_mapInsert_ne init p.1 p.2 k (fun hh => hp hh.symm)

theorem mapGetLast_append (k : String) :
    ∀ l1 l2 : List (String × String),
      mapGetLast (l1 ++ l2) k =
        match mapGetLast l2 k with
        | some v => some v
        | none => mapGetLast l1 k := by
  intro l1 l2
  induction l1 with
  | nil =>
    rw [List.nil_append]
    cases mapGetLast l2 k <;> rfl
  | cons p ps ih =>
    rw [List.cons_append]
    show (match mapGetLast (ps ++ l2) k with
      | some v => some v
      | none => if p.1 = k then some p.2 else none) =
      (match mapGetLast l2 k with
      | some v => some v
      | none => match mapGetLast ps k with
        | some v => some v
        | none => if p.1 = k then some p.2 else none)
    rw [ih]
    cases mapGetLast l2 k <;> cases mapGetLast ps k <;> rfl

/-- The lookup semantics of `union`: the job-side map (`b`) wins at a key
it holds; otherwise the instance-side map (`a`) is consulted. -/
theorem union_get (a b : List (String × String)) (k : String) :
    mapGet (union a b) k =
      match mapGetLast b k with
      | some v => some v
      | none => mapGetLast a k := by
  unfold union
  rw [mapGet_foldl_insert, mapGetLast_append]
  cases mapGetLast b k <;> cases mapGetLast a k <;> rfl

/-! ## Step-loop characterizations -/

theorem runSteps_trace (b : ExternalBehavior) (M m : String) :
    ∀ specs, (runSteps b M m specs).1 =
      (executedSpecs b specs).map (Event.run Ctx.jobDeadline) := by
  intro specs
  induction specs with
  | nil => rfl
  | cons s ss ih =>
    cases hr : b.runErr s with
    | some e => simp [runSteps, executedSpecs, hr]
    | none => simp [runSteps, executedSpecs, hr, ih]

theorem runSteps_err (b : ExternalBehavior) (M m : String) :
    ∀ specs, (runSteps b M m specs).2 =
      (firstFailure b specs).map (fun e => wrapError M e m) := by
  intro specs
  induction specs with
  | nil => rfl
  | cons s ss ih =>
    cases hr : b.runErr s with
    | some e => simp [runSteps, firstFailure, hr]
    | none => simp [runSteps, firstFailure, hr, ih]

theorem executedSpecs_append (b : ExternalBehavior) :
    ∀ xs ys, executedSpecs b (xs ++ ys) =
      match firstFailure b xs with
      | some _ => executedSpecs b xs
      | none => xs ++ executedSpecs b ys := by
  intro xs ys
  induction xs with
  | nil => rfl
  | cons s ss ih =>
    cases hr : b.runErr s with
    | some e => simp [executedSpecs, firstFailure, hr]
    | none =>
      simp only [List.cons_append, executedSpecs, firstFailure, hr,
        List.append_eq, ih]
      cases firstFailure b ss <;> rfl

theorem executedSpecs_of_no_failure (b : ExternalBehavior) :
    ∀ xs, firstFailure b xs = none → executedSpecs b xs = xs := by
  intro xs
  induction xs with
  | nil => intro _; rfl
  | cons s ss ih =>
    intro h
    cases hr : b.runErr s with
    | some e => simp [firstFailure, hr] at h
    | none =>
      simp only [executedSpecs, hr]
      rw [ih (by simpa [firstFailure, hr] using h)]

theorem runAllSteps_trace (b : ExternalBehavior) (M : String) (job : Job) :
    (runAllSteps b M job).1 =
      (executedSpecs b (dockerSpecs job ++ cliSpecs job)).map
        (Event.run Ctx.jobDeadline) := by
  unfold runAllSteps
  rw [executedSpecs_append]
  have hf := runSteps_err b M "failed to perform docker step" (dockerSpecs job)
  cases hff : firstFailure b (dockerSpecs job) with
  | some e =>
    rw [hff] at hf
    simp only [Option.map_some'] at hf
    simp [hf, runSteps_trace]
  | none =>
    rw [hff] at hf
    simp only [Option.map_none'] at hf
    simp [hf, runSteps_trace, executedSpecs_of_no_failure b _ hff,
      List.map_append]

theorem runAllSteps_err (b : ExternalBehavior) (M : String) (job : Job) :
    (runAllSteps b M job).2 =
      match firstFailure b (dockerSpecs job) with
      | some e => some (wrapError M e "failed to perform docker step")
      | none =>
        (firstFailure b (cliSpecs job)).map
          (fun e => wrapError M e "failed to perform src-cli step") := by
  unfold runAllSteps
  have hf := runSteps_err b M "failed to perform docker step" (dockerSpecs job)
  cases hff : firstFailure b (dockerSpecs job) with
  | some e =>
    rw [hff] at hf
    simp only [Option.map_some'] at hf
    simp [hf]
  | none =>
    rw [hff] at hf
    simp only [Option.map_none'] at hf
    simp [hf, runSteps_err]

/-! ## Event-kind helpers -/

/-- Is the event a `runner.Teardown` call? -/
def isTeardownEv : Event → Bool
  | Event.teardown _ => true
  | _ => false

/-- Is the event a name-set operation (`h.nameSet.Add` / `Remove`)? -/
def isNameSetEv : Event → Bool
  | Event.nameSetAdd _ => true
  | Event.nameSetRemove _ => true
  | _ => false

theorem writeVMFiles_events (cwd wd : String) :
    ∀ files, ∀ e ∈ (writeVMFiles cwd wd files).1, ∃ p c, e = Event.writeFile p c := by
  intro files
  induction files with
  | nil => intro e he; simp [writeVMFiles] at he
  | cons f rest ih =>
    intro e he
    obtain ⟨rel, content⟩ := f
    simp only [writeVMFiles] at he
    split at he
    · rcases List.mem_cons.mp he with he1 | he2
      · exact ⟨_, _, he1⟩
      · exact ih e he2
    · simp at he

theorem scriptsTrace_events (wd : String) (job : Job) :
    ∀ e ∈ scriptsTrace wd job, ∃ p c, e = Event.writeFile p c := by
  intro e he
  rcases List.mem_map.mp he with ⟨p, _, he2⟩
  exact ⟨_, _, he2.symm⟩

theorem runAllSteps_events (b : ExternalBehavior) (M : String) (job : Job) :
    ∀ e ∈ (runAllSteps b M job).1, ∃ s, e = Event.run Ctx.jobDeadline s := by
  intro e he
  rw [runAllSteps_trace] at he
  rcases List.mem_map.mp he with ⟨s, _, he2⟩
  exact ⟨s, he2.symm⟩

/-! ## Stage characterizations of `Handle` -/

theorem Handle_prepare_error (opts : Options) (b : ExternalBehavior) (job : Job)
    (e : GoError) (hp : b.prepareResult = .error e) :
    Handle opts b job =
      ([Event.createLogger (union opts.redactedValues job.redactedValues),
        Event.prepareWorkspace Ctx.jobDeadline],
       some (wrapError opts.maximumRuntimePerJob e "failed to prepare workspace")) := by
  simp only [Handle, hp]

theorem Handle_setup_error (opts : Options) (b : ExternalBehavior) (job : Job)
    (wd u : String) (e : GoError)
    (hp : b.prepareResult = .ok wd)
    (hw : (writeVMFiles b.cwd wd job.virtualMachineFiles).2 = none)
    (hu : b.uuidResult = .ok u)
    (hs : b.setupErr = some e) :
    Handle opts b job =
      ([Event.createLogger (union opts.redactedValues job.redactedValues),
        Event.prepareWorkspace Ctx.jobDeadline]
        ++ (writeVMFiles b.cwd wd job.virtualMachineFiles).1
        ++ [Event.nameSetAdd (opts.vmPref ++ "-" ++ u)]
        ++ scriptsTrace wd job
        ++ [Event.setup Ctx.jobDeadline (imageNames job.dockerSteps)]
        ++ [Event.nameSetRemove (opts.vmPref ++ "-" ++ u),
            Event.removeWorkingDir wd],
       some (wrapError opts.maximumRuntimePerJob e "failed to setup virtual machine")) := by
  simp only [Handle, hp, hw, hu, hs, List.append_assoc, List.cons_append,
    List.nil_append]

theorem Handle_setup_ok (opts : Options) (b : ExternalBehavior) (job : Job)
    (wd u : String)
    (hp : b.prepareResult = .ok wd)
    (hw : (writeVMFiles b.cwd wd job.virtualMachineFiles).2 = none)
    (hu : b.uuidResult = .ok u)
    (hs : b.setupErr = none) :
    Handle opts b job =
      ([Event.createLogger (union opts.redactedValues job.redactedValues),
        Event.prepareWorkspace Ctx.jobDeadline]
        ++ (writeVMFiles b.cwd wd job.virtualMachineFiles).1
        ++ [Event.nameSetAdd (opts.vmPref ++ "-" ++ u)]
        ++ scriptsTrace wd job
        ++ [Event.setup Ctx.jobDeadline (imageNames job.dockerSteps)]
        ++ (runAllSteps b opts.maximumRuntimePerJob job).1
        ++ [Event.teardown Ctx.background,
            Event.nameSetRemove (opts.vmPref ++ "-" ++ u),
            Event.removeWorkingDir wd],
       match b.teardownErr with
       | none => (runAllSteps b opts.maximumRuntimePerJob job).2
       | some te =>
         some (multierrorAppend (runAllSteps b opts.maximumRuntimePerJob job).2 te)) := by
  simp only [Handle, hp, hw, hu, hs, List.append_assoc, List.cons_append,
    List.nil_append]

/-- Whatever the oracle's outcomes, the first observable action of `Handle`
is the construction of the job logger with the merged redaction map. -/
theorem Handle_head (opts : Options) (b : ExternalBehavior) (job : Job) :
    (Handle opts b job).1.head? =
      some (Event.createLogger (union opts.redactedValues job.redactedValues)) := by
  simp only [Handle]
  repeat' split
  all_goals rfl

/-! # Claim theorems -/

/-- Concrete inputs used by the witness theorems. -/
def sampleOpts : Options :=
  ⟨"executor", "30m0s", ⟨true⟩, ⟨4⟩, [("SECRET", "***")]⟩

/-- A concrete job with two docker steps sharing one image, one cli step,
one virtual file and one redacted value. -/
def sampleJob : Job :=
  ⟨7, "github.com/foo/bar", "c0ffee",
   [⟨"alpine", ["echo a"], "", []⟩, ⟨"alpine", ["echo b"], "", []⟩],
   [⟨["exec"], "", []⟩],
   [("in.txt", "data")],
   [("TOKEN", "xyz")]⟩

/-- An oracle under which every external call succeeds. -/
def sampleRun : ExternalBehavior :=
  ⟨"/cwd", .ok "/work", .ok "u1", none, fun _ => none, none⟩

/-- An oracle under which only `runner.Teardown` fails. -/
def sampleRunTdFail : ExternalBehavior :=
  ⟨"/cwd", .ok "/work", .ok "u1", none, fun _ => none,
   some (GoError.msg "teardown failed")⟩

/-- An oracle under which `runner.Setup` fails with the deadline error. -/
def sampleRunSetupDl : ExternalBehavior :=
  ⟨"/cwd", .ok "/work", .ok "u1", some GoError.deadlineExceeded,
   fun _ => none, none⟩

/-- C3: `PreDequeue` returns "may dequeue" when isolated (Firecracker)
execution is disabled, or when the count of running VMs bearing this
instance's prefix is strictly below the configured number of concurrent
handlers; otherwise it returns "must not dequeue" with the orphaned-VM
warning and no error. -/
theorem preDequeue_c3 (opts : Options) (r : Except GoError (List String)) :
    (opts.firecrackerOptions.enabled = false →
      PreDequeue opts r = ⟨true, none, false⟩)
    ∧ (∀ vms, r = .ok vms → vms.length < opts.workerOptions.numHandlers →
        PreDequeue opts r = ⟨true, none, false⟩)
    ∧ (∀ vms, opts.firecrackerOptions.enabled = true → r = .ok vms →
        ¬ vms.length < opts.workerOptions.numHandlers →
        PreDequeue opts r = ⟨false, none, true⟩) := by
  refine ⟨?_, ?_, ?_⟩
  · intro h
    simp [PreDequeue, h]
  · intro vms hr hlt
    subst hr
    by_cases he : opts.firecrackerOptions.enabled
    · simp [PreDequeue, he, hlt]
    · simp [PreDequeue, he]
  · intro vms he hr hnlt
    subst hr
    simp [PreDequeue, he, hnlt]

/-- Witness for C3: one orphaned VM and a single-handler ceiling refuse
dequeueing with a warning and no error. -/
theorem preDequeue_c3_witness :
    PreDequeue ⟨"executor", "30m0s", ⟨true⟩, ⟨1⟩, []⟩ (.ok ["vm1"])
      = ⟨false, none, true⟩ :=
  (preDequeue_c3 ⟨"executor", "30m0s", ⟨true⟩, ⟨1⟩, []⟩ (.ok ["vm1"])).2.2
    ["vm1"] rfl rfl (by decide)

/-- C10: when Firecracker execution is enabled and the running-VM query
itself fails, `PreDequeue` refuses to dequeue and returns that error (no
warning). -/
theorem preDequeue_error_c10 (opts : Options) (e : GoError)
    (he : opts.firecrackerOptions.enabled = true) :
    PreDequeue opts (.error e) = ⟨false, some e, false⟩ := by
  simp [PreDequeue, he]

/-- Witness for C10. -/
theorem preDequeue_error_c10_witness :
    PreDequeue ⟨"executor", "30m0s", ⟨true⟩, ⟨4⟩, []⟩
        (.error (GoError.msg "vm query failed"))
      = ⟨false, some (GoError.msg "vm query failed"), false⟩ :=
  preDequeue_error_c10 ⟨"executor", "30m0s", ⟨true⟩, ⟨4⟩, []⟩
    (GoError.msg "vm query failed") rfl

/-- C9 (amended): the job logger is constructed as the very first action
of `Handle` - before any step executes - with the union of the
instance-wide and the job's redacted values, where a key held by both
sources keeps the job's value (an instance-wide pair whose key the job
also redacts is superseded, see the counterexample). -/
theorem logger_union_c9 (opts : Options) (b : ExternalBehavior) (job : Job) :
    (Handle opts b job).1.head? =
        some (Event.createLogger (union opts.redactedValues job.redactedValues))
    ∧ (∀ k, mapGet (union opts.redactedValues job.redactedValues) k =
        match mapGetLast job.redactedValues k with
        | some v => some v
        | none => mapGetLast opts.redactedValues k) :=
  ⟨Handle_head opts b job, fun k => union_get _ _ k⟩

/-- C9 counterexample: with instance-wide redacted values `{k: a}` and job
redacted values `{k: b}`, the merged map handed to the logger is `{k: b}`;
the instance-wide pair `(k, a)` is not supplied to the logger, refuting
"every name/value pair from either source is supplied". -/
theorem logger_union_c9_counterexample :
    (Handle ⟨"executor", "30m0s", ⟨true⟩, ⟨4⟩, [("k", "a")]⟩
        ⟨"/cwd", .error (GoError.msg "stop"), .error (GoError.msg "u"), none,
         fun _ => none, none⟩
        ⟨1, "repo", "c", [], [], [], [("k", "b")]⟩).1.head?
      = some (Event.createLogger [("k", "b")])
    ∧ ("k", "a") ∉ union [("k", "a")] [("k", "b")] :=
  ⟨rfl, by decide⟩

/-- C1: whenever environment `Setup` succeeds, `runner.Teardown` is
invoked exactly once before `Handle` returns - whatever the step
outcomes - under `context.Background()` (not the job's deadline context);
and a teardown failure is appended with `multierror.Append` to whatever
step error is in flight instead of replacing it. -/
theorem handle_teardown_c1 (opts : Options) (b : ExternalBehavior) (job : Job)
    (wd u : String)
    (hp : b.prepareResult = .ok wd)
    (hw : (writeVMFiles b.cwd wd job.virtualMachineFiles).2 = none)
    (hu : b.uuidResult = .ok u)
    (hs : b.setupErr = none) :
    (Handle opts b job).1.filter isTeardownEv = [Event.teardown Ctx.background]
    ∧ (Handle opts b job).2 =
        (match b.teardownErr with
         | none => (runAllSteps b opts.maximumRuntimePerJob job).2
         | some te =>
           some (multierrorAppend
             (runAllSteps b opts.maximumRuntimePerJob job).2 te)) := by
  rw [Handle_setup_ok opts b job wd u hp hw hu hs]
  refine ⟨?_, rfl⟩
  have h1 : ((writeVMFiles b.cwd wd job.virtualMachineFiles).1).filter
      isTeardownEv = [] := by
    rw [List.filter_eq_nil_iff]
    intro e he
    rcases writeVMFiles_events b.cwd wd _ e he with ⟨p, c, rfl⟩
    simp [isTeardownEv]
  have h2 : (scriptsTrace wd job).filter isTeardownEv = [] := by
    rw [List.filter_eq_nil_iff]
    intro e he
    rcases scriptsTrace_events wd job e he with ⟨p, c, rfl⟩
    simp [isTeardownEv]
  have h3 : ((runAllSteps b opts.maximumRuntimePerJob job).1).filter
      isTeardownEv = [] := by
    rw [List.filter_eq_nil_iff]
    intro e he
    rcases runAllSteps_events b _ job e he with ⟨s, rfl⟩
    simp [isTeardownEv]
  simp [List.filter_append, h1, h2, h3, isTeardownEv]

/-- Witness for C1, with all steps succeeding and teardown failing: the
returned error is the multierror holding the teardown failure. -/
theorem handle_teardown_c1_witness :
    (Handle sampleOpts sampleRunTdFail sampleJob).1.filter isTeardownEv
        = [Event.teardown Ctx.background]
    ∧ (Handle sampleOpts sampleRunTdFail sampleJob).2 =
        (match sampleRunTdFail.teardownErr with
         | none => (runAllSteps sampleRunTdFail
             sampleOpts.maximumRuntimePerJob sampleJob).2
         | some te =>
           some (multierrorAppend (runAllSteps sampleRunTdFail
             sampleOpts.maximumRuntimePerJob sampleJob).2 te)) :=
  handle_teardown_c1 sampleOpts sampleRunTdFail sampleJob "/work" "u1"
    rfl rfl rfl rfl

/-- C4: a stage failing with an error satisfying the deadline-exceeded
condition makes `Handle` return the distinguished
"job exceeded maximum execution time of <duration>" message wrapped with
that stage's message, never the raw deadline error - for workspace
preparation, VM setup, the first failing docker step and the first
failing cli step (teardown assumed clean for the post-setup stages, else
the same wrapped error is aggregated with the teardown failure per C1). -/
theorem handle_deadline_c4 (opts : Options) (b : ExternalBehavior) (job : Job) :
    (∀ e, b.prepareResult = .error e → isDeadlineExceeded e = true →
      (Handle opts b job).2 = some (GoError.wrap
        (GoError.msg ("job exceeded maximum execution time of "
          ++ opts.maximumRuntimePerJob)) "failed to prepare workspace"))
    ∧ (∀ wd u e, b.prepareResult = .ok wd →
        (writeVMFiles b.cwd wd job.virtualMachineFiles).2 = none →
        b.uuidResult = .ok u → b.setupErr = some e →
        isDeadlineExceeded e = true →
        (Handle opts b job).2 = some (GoError.wrap
          (GoError.msg ("job exceeded maximum execution time of "
            ++ opts.maximumRuntimePerJob)) "failed to setup virtual machine"))
    ∧ (∀ wd u e, b.prepareResult = .ok wd →
        (writeVMFiles b.cwd wd job.virtualMachineFiles).2 = none →
        b.uuidResult = .ok u → b.setupErr = none → b.teardownErr = none →
        firstFailure b (dockerSpecs job) = some e →
        isDeadlineExceeded e = true →
        (Handle opts b job).2 = some (GoError.wrap
          (GoError.msg ("job exceeded maximum execution time of "
            ++ opts.maximumRuntimePerJob)) "failed to perform docker step"))
    ∧ (∀ wd u e, b.prepareResult = .ok wd →
        (writeVMFiles b.cwd wd job.virtualMachineFiles).2 = none →
        b.uuidResult = .ok u → b.setupErr = none → b.teardownErr = none →
        firstFailure b (dockerSpecs job) = none →
        firstFailure b (cliSpecs job) = some e →
        isDeadlineExceeded e = true →
        (Handle opts b job).2 = some (GoError.wrap
          (GoError.msg ("job exceeded maximum execution time of "
            ++ opts.maximumRuntimePerJob)) "failed to perform src-cli step")) := by
  refine ⟨?_, ?_, ?_, ?_⟩
  · intro e hp hdl
    rw [Handle_prepare_error opts b job e hp]
    simp [wrapError, hdl]
  · intro wd u e hp hw hu hs hdl
    rw [Handle_setup_error opts b job wd u e hp hw hu hs]
    simp [wrapError, hdl]
  · intro wd u e hp hw hu hs htd hff hdl
    rw [Handle_setup_ok opts b job wd u hp hw hu hs]
    simp only [htd]
    rw [runAllSteps_err, hff]
    simp [wrapError, hdl]
  · intro wd u e hp hw hu hs htd hfd hfc hdl
    rw [Handle_setup_ok opts b job wd u hp hw hu hs]
    simp only [htd]
    rw [runAllSteps_err, hfd, hfc]
    simp [wrapError, hdl]

/-- Witness for C4: `runner.Setup` failing with the raw deadline error
surfaces as the distinguished maximum-execution-time message wrapped with
the setup stage's message. -/
theorem handle_deadline_c4_witness :
    (Handle sampleOpts sampleRunSetupDl sampleJob).2 =
      some (GoError.wrap
        (GoError.msg ("job exceeded maximum execution time of "
          ++ sampleOpts.maximumRuntimePerJob)) "failed to setup virtual machine") :=
  (handle_deadline_c4 sampleOpts sampleRunSetupDl sampleJob).2.1 "/work" "u1"
    GoError.deadlineExceeded rfl rfl rfl rfl rfl

/-- The command spec of an `Event.run`, if the event is one. -/
def runSpecOf : Event → Option CommandSpec
  | Event.run _ s => some s
  | _ => none

/-- C5: under a successful setup, the `runner.Run` calls `Handle` makes
are exactly the docker-step specs in declared order followed by the
cli-step specs in declared order, cut off after the first failing one
(`executedSpecs`); teardown still runs after a step failure, and the
first failure's error is returned wrapped with its loop's message. -/
theorem handle_steps_c5 (opts : Options) (b : ExternalBehavior) (job : Job)
    (wd u : String)
    (hp : b.prepareResult = .ok wd)
    (hw : (writeVMFiles b.cwd wd job.virtualMachineFiles).2 = none)
    (hu : b.uuidResult = .ok u)
    (hs : b.setupErr = none) :
    (Handle opts b job).1.filterMap runSpecOf
      = executedSpecs b (dockerSpecs job ++ cliSpecs job)
    ∧ Event.teardown Ctx.background ∈ (Handle opts b job).1
    ∧ (∀ e, firstFailure b (dockerSpecs job) = some e → b.teardownErr = none →
        (Handle opts b job).2 = some (wrapError opts.maximumRuntimePerJob e
          "failed to perform docker step"))
    ∧ (∀ e, firstFailure b (dockerSpecs job) = none →
        firstFailure b (cliSpecs job) = some e → b.teardownErr = none →
        (Handle opts b job).2 = some (wrapError opts.maximumRuntimePerJob e
          "failed to perform src-cli step")) := by
  rw [Handle_setup_ok opts b job wd u hp hw hu hs]
  have h1 : ((writeVMFiles b.cwd wd job.virtualMachineFiles).1).filterMap
      runSpecOf = [] := by
    rw [List.filterMap_eq_nil_iff]
    intro e he
    rcases writeVMFiles_events b.cwd wd _ e he with ⟨p, c, rfl⟩
    rfl
  have h2 : (scriptsTrace wd job).filterMap runSpecOf = [] := by
    rw [List.filterMap_eq_nil_iff]
    intro e he
    rcases scriptsTrace_events wd job e he with ⟨p, c, rfl⟩
    rfl
  have h3 : ((runAllSteps b opts.maximumRuntimePerJob job).1).filterMap
      runSpecOf = executedSpecs b (dockerSpecs job ++ cliSpecs job) := by
    rw [runAllSteps_trace, List.filterMap_map]
    have hco : runSpecOf ∘ Event.run Ctx.jobDeadline = fun s => some s := rfl
    rw [hco]
    exact List.filterMap_some _
  refine ⟨?_, ?_, ?_, ?_⟩
  · simp [List.filterMap_append, h1, h2, h3, runSpecOf]
  · simp
  · intro e hff htd
    simp only [htd]
    rw [runAllSteps_err, hff]
  · intro e hfd hfc htd
    simp only [htd]
    rw [runAllSteps_err, hfd, hfc]
    rfl

/-- Witness for C5: with every external call succeeding, the run calls
are exactly all docker specs then all cli specs, and teardown runs. -/
theorem handle_steps_c5_witness :
    (Handle sampleOpts sampleRun sampleJob).1.filterMap runSpecOf
      = executedSpecs sampleRun (dockerSpecs sampleJob ++ cliSpecs sampleJob)
    ∧ Event.teardown Ctx.background ∈ (Handle sampleOpts sampleRun sampleJob).1
    ∧ (∀ e, firstFailure sampleRun (dockerSpecs sampleJob) = some e →
        sampleRun.teardownErr = none →
        (Handle sampleOpts sampleRun sampleJob).2 =
          some (wrapError sampleOpts.maximumRuntimePerJob e
            "failed to perform docker step"))
    ∧ (∀ e, firstFailure sampleRun (dockerSpecs sampleJob) = none →
        firstFailure sampleRun (cliSpecs sampleJob) = some e →
        sampleRun.teardownErr = none →
        (Handle sampleOpts sampleRun sampleJob).2 =
          some (wrapError sampleOpts.maximumRuntimePerJob e
            "failed to perform src-cli step")) :=
  handle_steps_c5 sampleOpts sampleRun sampleJob "/work" "u1" rfl rfl rfl rfl

/-- C6: `runner.Setup` receives exactly `imageNames job.dockerSteps`: the
distinct container images of the job's docker steps, without duplicates,
sorted ascending byte-lexicographically, and depending only on the set of
images referenced (not on step order or multiplicity). -/
theorem handle_images_c6 (opts : Options) (b : ExternalBehavior) (job : Job)
    (wd u : String)
    (hp : b.prepareResult = .ok wd)
    (hw : (writeVMFiles b.cwd wd job.virtualMachineFiles).2 = none)
    (hu : b.uuidResult = .ok u) :
    (∃ pre post, (Handle opts b job).1 =
        pre ++ Event.setup Ctx.jobDeadline (imageNames job.dockerSteps) :: post)
    ∧ (imageNames job.dockerSteps).Nodup
    ∧ (imageNames job.dockerSteps).Pairwise (fun a b => strLeB a b = true)
    ∧ (∀ s, s ∈ imageNames job.dockerSteps ↔
        ∃ st ∈ job.dockerSteps, st.image = s)
    ∧ (∀ steps2, (∀ s, (∃ st ∈ job.dockerSteps, st.image = s) ↔
          (∃ st ∈ steps2, st.image = s)) →
        imageNames job.dockerSteps = imageNames steps2) := by
  refine ⟨?_, imageNames_nodup _, imageNames_pairwise _, imageNames_mem _,
    fun steps2 h => imageNames_canonical h⟩
  cases hs : b.setupErr with
  | some e =>
    refine ⟨[Event.createLogger (union opts.redactedValues job.redactedValues),
        Event.prepareWorkspace Ctx.jobDeadline]
        ++ (writeVMFiles b.cwd wd job.virtualMachineFiles).1
        ++ [Event.nameSetAdd (opts.vmPref ++ "-" ++ u)]
        ++ scriptsTrace wd job,
      [Event.nameSetRemove (opts.vmPref ++ "-" ++ u),
        Event.removeWorkingDir wd], ?_⟩
    rw [Handle_setup_error opts b job wd u e hp hw hu hs]
    simp [List.append_assoc]
  | none =>
    refine ⟨[Event.createLogger (union opts.redactedValues job.redactedValues),
        Event.prepareWorkspace Ctx.jobDeadline]
        ++ (writeVMFiles b.cwd wd job.virtualMachineFiles).1
        ++ [Event.nameSetAdd (opts.vmPref ++ "-" ++ u)]
        ++ scriptsTrace wd job,
      (runAllSteps b opts.maximumRuntimePerJob job).1
        ++ [Event.teardown Ctx.background,
            Event.nameSetRemove (opts.vmPref ++ "-" ++ u),
            Event.removeWorkingDir wd], ?_⟩
    rw [Handle_setup_ok opts b job wd u hp hw hu hs]
    simp [List.append_assoc]

/-- Witness for C6: `sampleJob` has two docker steps sharing the image
`alpine`; `Setup` receives the single sorted name. -/
theorem handle_images_c6_witness :
    ((∃ pre post, (Handle sampleOpts sampleRun sampleJob).1 =
        pre ++ Event.setup Ctx.jobDeadline (imageNames sampleJob.dockerSteps)
          :: post)
    ∧ (imageNames sampleJob.dockerSteps).Nodup
    ∧ (imageNames sampleJob.dockerSteps).Pairwise (fun a b => strLeB a b = true)
    ∧ (∀ s, s ∈ imageNames sampleJob.dockerSteps ↔
        ∃ st ∈ sampleJob.dockerSteps, st.image = s)
    ∧ (∀ steps2, (∀ s, (∃ st ∈ sampleJob.dockerSteps, st.image = s) ↔
          (∃ st ∈ steps2, st.image = s)) →
        imageNames sampleJob.dockerSteps = imageNames steps2))
    ∧ imageNames sampleJob.dockerSteps = ["alpine"] :=
  ⟨handle_images_c6 sampleOpts sampleRun sampleJob "/work" "u1" rfl rfl rfl, rfl⟩

/-- C7: once the file loop and the UUID draw succeed, `Handle` forms the
name `<VM-prefix>-<uuid>`, adds it to the in-use name set before any
further action (in particular before `Setup`), and on every such run the
trace ends by removing exactly that name and then deleting the working
directory - the only name-set events of the run being that add/remove
pair - with the removal coming directly after the teardown call whenever
one occurs. -/
theorem handle_nameset_c7 (opts : Options) (b : ExternalBehavior) (job : Job)
    (wd u : String)
    (hp : b.prepareResult = .ok wd)
    (hw : (writeVMFiles b.cwd wd job.virtualMachineFiles).2 = none)
    (hu : b.uuidResult = .ok u) :
    ∃ s, ((Handle opts b job).1 =
        [Event.createLogger (union opts.redactedValues job.redactedValues),
         Event.prepareWorkspace Ctx.jobDeadline]
        ++ (writeVMFiles b.cwd wd job.virtualMachineFiles).1
        ++ Event.nameSetAdd (opts.vmPref ++ "-" ++ u)
          :: (s ++ [Event.nameSetRemove (opts.vmPref ++ "-" ++ u),
                    Event.removeWorkingDir wd]))
      ∧ Event.setup Ctx.jobDeadline (imageNames job.dockerSteps) ∈ s
      ∧ (∀ e ∈ (writeVMFiles b.cwd wd job.virtualMachineFiles).1,
          isNameSetEv e = false)
      ∧ (∀ e ∈ s, isNameSetEv e = false)
      ∧ (∀ c, Event.teardown c ∈ (Handle opts b job).1 →
          s.getLast? = some (Event.teardown Ctx.background)) := by
  cases hs : b.setupErr with
  | some e =>
    refine ⟨scriptsTrace wd job
      ++ [Event.setup Ctx.jobDeadline (imageNames job.dockerSteps)],
      ?_, by simp, ?_, ?_, ?_⟩
    · rw [Handle_setup_error opts b job wd u e hp hw hu hs]
      simp [List.append_assoc]
    · intro e' he'
      rcases writeVMFiles_events b.cwd wd _ e' he' with ⟨p, c, rfl⟩
      rfl
    · intro e' he'
      rcases List.mem_append.mp he' with h | h
      · rcases scriptsTrace_events wd job e' h with ⟨p, c, rfl⟩
        rfl
      · rw [List.mem_singleton] at h
        subst h
        rfl
    · intro c hc
      rw [Handle_setup_error opts b job wd u e hp hw hu hs] at hc
      exfalso
      simp only [List.append_assoc, List.mem_append, List.mem_cons,
        List.mem_singleton, List.not_mem_nil, or_false, false_or,
        reduceCtorEq] at hc
      rcases hc with h | h
      · rcases writeVMFiles_events b.cwd wd _ _ h with ⟨p, c2, hh⟩
        exact absurd hh (by simp)
      · rcases scriptsTrace_events wd job _ h with ⟨p, c2, hh⟩
        exact absurd hh (by simp)
  | none =>
    refine ⟨scriptsTrace wd job
      ++ [Event.setup Ctx.jobDeadline (imageNames job.dockerSteps)]
      ++ (runAllSteps b opts.maximumRuntimePerJob job).1
      ++ [Event.teardown Ctx.background],
      ?_, by simp, ?_, ?_, ?_⟩
    · rw [Handle_setup_ok opts b job wd u hp hw hu hs]
      simp [List.append_assoc]
    · intro e' he'
      rcases writeVMFiles_events b.cwd wd _ e' he' with ⟨p, c, rfl⟩
      rfl
    · intro e' he'
      rcases List.mem_append.mp he' with h | h
      · rcases List.mem_append.mp h with h2 | h2
        · rcases List.mem_append.mp h2 with h3 | h3
          · rcases scriptsTrace_events wd job e' h3 with ⟨p, c, rfl⟩
            rfl
          · rw [List.mem_singleton] at h3
            subst h3
            rfl
        · rcases runAllSteps_events b _ job e' h2 with ⟨sp, rfl⟩
          rfl
      · rw [List.mem_singleton] at h
        subst h
        rfl
    · intro c hc
      rw [List.getLast?_concat]

/-- Witness for C7. -/
theorem handle_nameset_c7_witness :
    ∃ s, ((Handle sampleOpts sampleRun sampleJob).1 =
        [Event.createLogger (union sampleOpts.redactedValues
            sampleJob.redactedValues),
         Event.prepareWorkspace Ctx.jobDeadline]
        ++ (writeVMFiles sampleRun.cwd "/work"
            sampleJob.virtualMachineFiles).1
        ++ Event.nameSetAdd (sampleOpts.vmPref ++ "-" ++ "u1")
          :: (s ++ [Event.nameSetRemove (sampleOpts.vmPref ++ "-" ++ "u1"),
                    Event.removeWorkingDir "/work"]))
      ∧ Event.setup Ctx.jobDeadline (imageNames sampleJob.dockerSteps) ∈ s
      ∧ (∀ e ∈ (writeVMFiles sampleRun.cwd "/work"
            sampleJob.virtualMachineFiles).1, isNameSetEv e = false)
      ∧ (∀ e ∈ s, isNameSetEv e = false)
      ∧ (∀ c, Event.teardown c ∈ (Handle sampleOpts sampleRun sampleJob).1 →
          s.getLast? = some (Event.teardown Ctx.background)) :=
  handle_nameset_c7 sampleOpts sampleRun sampleJob "/work" "u1" rfl rfl rfl

/-- C8: docker step `i`'s script has the fixed command-echo preamble
followed by the step's commands joined one per line; it is written under
the scripts directory with the name
`<jobID>.<i>_<repo with "/" replaced by "_">@<commit>.sh`, and two script
names built from distinct `(job ID, step index)` pairs always differ. -/
theorem handle_scripts_c8 (opts : Options) (b : ExternalBehavior) (job : Job)
    (wd u : String)
    (hp : b.prepareResult = .ok wd)
    (hw : (writeVMFiles b.cwd wd job.virtualMachineFiles).2 = none)
    (hu : b.uuidResult = .ok u) :
    (∀ st : DockerStep, buildScript st =
        scriptPreamble ++ "\n" ++ joinWith "\n" ("" :: st.commands) ++ "\n")
    ∧ (∀ i (h : i < job.dockerSteps.length),
        Event.writeFile
            (goJoinList [wd, ScriptsPath, scriptNameFromJobStep job i])
            (buildScript job.dockerSteps[i])
          ∈ (Handle opts b job).1)
    ∧ (∀ (j2 : Job) (i1 i2 : Nat),
        scriptNameFromJobStep job i1 = scriptNameFromJobStep j2 i2 →
        job.id = j2.id ∧ i1 = i2) := by
  refine ⟨fun st => rfl, ?_, fun j2 i1 i2 h => scriptName_inj h⟩
  intro i h
  have hmem : Event.writeFile
      (goJoinList [wd, ScriptsPath, scriptNameFromJobStep job i])
      (buildScript job.dockerSteps[i]) ∈ scriptsTrace wd job := by
    apply List.mem_map.mpr
    refine ⟨(i, job.dockerSteps[i]), ?_, rfl⟩
    have hlen : i < job.dockerSteps.enum.length := by
      simpa [List.enum_length] using h
    have hget := List.getElem_mem hlen
    rwa [List.getElem_enum] at hget
  cases hs : b.setupErr with
  | some e =>
    rw [Handle_setup_error opts b job wd u e hp hw hu hs]
    simp [hmem]
  | none =>
    rw [Handle_setup_ok opts b job wd u hp hw hu hs]
    simp [hmem]

/-- Witness for C8. -/
theorem handle_scripts_c8_witness :
    ((∀ st : DockerStep, buildScript st =
        scriptPreamble ++ "\n" ++ joinWith "\n" ("" :: st.commands) ++ "\n")
    ∧ (∀ i (h : i < sampleJob.dockerSteps.length),
        Event.writeFile
            (goJoinList ["/work", ScriptsPath, scriptNameFromJobStep sampleJob i])
            (buildScript sampleJob.dockerSteps[i])
          ∈ (Handle sampleOpts sampleRun sampleJob).1)
    ∧ (∀ (j2 : Job) (i1 i2 : Nat),
        scriptNameFromJobStep sampleJob i1 = scriptNameFromJobStep j2 i2 →
        sampleJob.id = j2.id ∧ i1 = i2))
    ∧ scriptNameFromJobStep sampleJob 0 = "7.0_github.com_foo_bar@c0ffee.sh" :=
  ⟨handle_scripts_c8 sampleOpts sampleRun sampleJob "/work" "u1" rfl rfl rfl, rfl⟩

/-- C2 (code bug): the guard before writing a job's virtual files is the
raw string-prefix test `strings.HasPrefix(abs(join(wd, rel)), wd)`. A
relative path resolving to a sibling directory whose name extends the
working directory's as a string - here `/tmp/w2/f` against `/tmp/w` -
passes the guard, so the file is written outside the working directory
and `Handle` returns no error, while the claim requires a hard error and
no write; the claim's own example `"../escape"` is indeed rejected. -/
theorem handle_traversal_c2_bug :
    goAbs "/cwd" (goJoinList ["/tmp/w", "../w2/f"]) = "/tmp/w2/f"
    ∧ ("/tmp/w2/f" ≠ "/tmp/w"
        ∧ goStartsWith "/tmp/w2/f" ("/tmp/w" ++ "/") = false)
    ∧ writeVMFiles "/cwd" "/tmp/w" [("../w2/f", "data")]
        = ([Event.writeFile "/tmp/w2/f" "data"], none)
    ∧ (Handle ⟨"executor", "30m0s", ⟨true⟩, ⟨4⟩, []⟩
          ⟨"/cwd", .ok "/tmp/w", .ok "u1", none, fun _ => none, none⟩
          ⟨1, "repo", "c", [], [], [("../w2/f", "data")], []⟩).2 = none
    ∧ Event.writeFile "/tmp/w2/f" "data" ∈
        (Handle ⟨"executor", "30m0s", ⟨true⟩, ⟨4⟩, []⟩
          ⟨"/cwd", .ok "/tmp/w", .ok "u1", none, fun _ => none, none⟩
          ⟨1, "repo", "c", [], [], [("../w2/f", "data")], []⟩).1
    ∧ writeVMFiles "/cwd" "/tmp/w" [("../escape", "x")]
        = ([], some (GoError.msg "refusing to write outside of working directory")) :=
  ⟨rfl, ⟨by decide, rfl⟩, rfl, rfl, by decide, rfl⟩

end Executor
